import Mathlib

/-!
Shallow embedding of the CustomNN inference engine of
`src/Miko/neural_network.h` / `src/Miko/neural_network.cpp`.

Modelling conventions:
* A `float` buffer of `n` allocated cells is a `List α` of length `n`, for an
  arbitrary linear ordered field `α` (exact arithmetic in place of IEEE
  rounding).
* An in-place C loop `for (i = 0; i < size; ++i) data[i] = ...;` becomes
  `map_loop`, a fold over `List.range size` that overwrites index `i` with a
  value computed from the entry currently stored there; `List.set` beyond the
  end of the list is a no-op, matching the fact that the claims only exercise
  in-bounds writes.
* Reads use `List.getD _ 0`.  The one read that can genuinely go out of
  bounds in the claims' scope is `data[0]` at the top of
  `Activation::softmax`, performed before any size check; `softmax` therefore
  returns `Option`, with `none` marking that out-of-bounds access on an empty
  buffer.
* `expf` is modelled by an abstract function `e : α → α`; theorems that need
  positivity of the exponential assume `∀ x, 0 < e x`.
* The uninitialized local `float output[3]` of `predict_class` is modelled by
  three arbitrary junk values `j0 j1 j2` supplied by the caller, since C
  gives no guarantee about its initial contents.
-/

namespace CustomNN

variable {α : Type} [LinearOrderedField α]

/-- One C buffer loop `for (i = 0; i < size; ++i) data[i] = f(i, data[i]);`:
fold over the index range, each step overwriting slot `i` with a value
computed from the entry currently stored there. -/
def map_loop (f : Nat → α → α) (size : Nat) (data : List α) : List α :=
  (List.range size).foldl (fun d i => d.set i (f i (d.getD i 0))) data

/-- Embedding of `Activation::relu` (src/Miko/neural_network.cpp:16):
`data[i] = (data[i] > 0.0f) ? data[i] : 0.0f` for every `i < size`. -/
def relu (data : List α) (size : Nat) : List α :=
  map_loop (fun _ x => if 0 < x then x else 0) size data

/-- Embedding of `Activation::softmax` (src/Miko/neural_network.cpp:23).
The code first reads `data[0]` with no size check (an out-of-bounds access
when the buffer is empty, modelled as `none`), then takes the maximum over
`data[1..size)`, replaces `data[i]` by `expf(data[i] - max_val)` while
accumulating the sum of the written values, and finally divides the first
`size` entries by that sum.  `e` stands for `expf`. -/
def softmax (e : α → α) (data : List α) (size : Nat) : Option (List α) :=
  match data with
  | [] => none
  | d0 :: _ =>
    let max_val := (List.range' 1 (size - 1)).foldl
      (fun m i => if m < data.getD i 0 then data.getD i 0 else m) d0
    let exps := map_loop (fun _ x => e (x - max_val)) size data
    let s := (List.range size).foldl (fun acc i => acc + exps.getD i 0) 0
    some (map_loop (fun _ x => x / s) size exps)

/-- Embedding of `MatrixOps::matvec_multiply` (src/Miko/neural_network.cpp:49):
zero the first `cols` entries of `output`, then for each `i < rows` run the
inner loop `output[j] += weights[i * cols + j] * input[i]` over `j < cols`. -/
def matvec_multiply (weights input output : List α) (rows cols : Nat) : List α :=
  (List.range rows).foldl
    (fun out i =>
      map_loop (fun j x => x + weights.getD (i * cols + j) 0 * input.getD i 0) cols out)
    (map_loop (fun _ _ => 0) cols output)

/-- Embedding of `MatrixOps::vector_add` (src/Miko/neural_network.cpp:70):
`output[i] = a[i] + b[i]` for every `i < size`, with `output` distinct from
`a` and `b`. -/
def vector_add (a b output : List α) (size : Nat) : List α :=
  map_loop (fun i _ => a.getD i 0 + b.getD i 0) size output

/-- The `vector_add` loop when the output pointer aliases `a`: the read of
`a[i]` in iteration `i` sees the buffer as updated by earlier iterations. -/
def vector_add_alias_fst (a b : List α) (size : Nat) : List α :=
  map_loop (fun i x => x + b.getD i 0) size a

/-- The `vector_add` loop when the output pointer aliases `b`. -/
def vector_add_alias_snd (a b : List α) (size : Nat) : List α :=
  map_loop (fun i x => a.getD i 0 + x) size b

/-- Embedding of `MatrixOps::dense_forward` (src/Miko/neural_network.cpp:81):
`matvec_multiply` into `output`, then `output[i] += bias[i]` for every
`i < output_size`.  No activation is applied. -/
def dense_forward (input weights bias output : List α) (input_size output_size : Nat) :
    List α :=
  map_loop (fun i x => x + bias.getD i 0) output_size
    (matvec_multiply weights input output input_size output_size)

/-- State of a `CustomNN::NeuralNetwork` object: the two layers' weight and
bias references and sizes, plus the 18-slot intermediate buffer
`layer1_output_` embedded in the instance. -/
structure NeuralNetwork (α : Type) where
  layer1_weights : List α
  layer1_bias : List α
  layer1_input_size : Nat
  layer1_output_size : Nat
  layer2_weights : List α
  layer2_bias : List α
  layer2_input_size : Nat
  layer2_output_size : Nat
  layer1_output : List α

/-- Embedding of the `NeuralNetwork` constructor
(src/Miko/neural_network.cpp:102): stores the layer parameters and zero-fills
all 18 slots of the intermediate buffer. -/
def NeuralNetwork.construct (w1 b1 : List α) (in1 out1 : Nat)
    (w2 b2 : List α) (in2 out2 : Nat) : NeuralNetwork α :=
  ⟨w1, b1, in1, out1, w2, b2, in2, out2, List.replicate 18 0⟩

/-- Embedding of `NeuralNetwork::predict` (src/Miko/neural_network.cpp:126):
layer 1 `dense_forward` into the intermediate buffer, `relu` on its first
`layer1_output_size` entries, layer 2 `dense_forward` into the caller's
output buffer, `softmax` on its first `layer2_output_size` entries.  Returns
the updated object state together with the final contents of the output
buffer (`none` when `softmax` faulted on an empty buffer). -/
def NeuralNetwork.predict (e : α → α) (nn : NeuralNetwork α) (input output : List α) :
    NeuralNetwork α × Option (List α) :=
  let buf := relu
    (dense_forward input nn.layer1_weights nn.layer1_bias nn.layer1_output
      nn.layer1_input_size nn.layer1_output_size)
    nn.layer1_output_size
  let out := dense_forward buf nn.layer2_weights nn.layer2_bias output
    nn.layer2_input_size nn.layer2_output_size
  ({ nn with layer1_output := buf }, softmax e out nn.layer2_output_size)

/-- Embedding of `NeuralNetwork::predict_class`
(src/Miko/neural_network.cpp:156): `predict` into a local `float output[3]`
stack buffer whose unspecified initial contents are `j0, j1, j2`, then the
hard-coded argmax scan `for (int i = 1; i < 3; ++i)` keeping the first index
whose value is strictly greater than the running maximum. -/
def NeuralNetwork.predict_class (e : α → α) (nn : NeuralNetwork α) (input : List α)
    (j0 j1 j2 : α) : NeuralNetwork α × Option Nat :=
  let p := nn.predict e input [j0, j1, j2]
  (p.1, p.2.map (fun out =>
    ((List.range' 1 2).foldl
      (fun pm i => if pm.2 < out.getD i 0 then (i, out.getD i 0) else pm)
      (0, out.getD 0 0)).1))

/-- Spec-side dense layer, written from the specification's formula:
entry `j` is `Σ_{i < input_size} weights[i * output_size + j] * input[i]`
plus `bias[j]`. -/
def denseSpec (weights bias input : List α) (input_size output_size : Nat) : List α :=
  (List.range output_size).map
    (fun j =>
      (∑ i ∈ Finset.range input_size, weights.getD (i * output_size + j) 0 * input.getD i 0)
        + bias.getD j 0)

/-- Spec-side ReLU: negative entries become zero, others pass through. -/
def reluSpec (v : List α) : List α :=
  v.map (fun x => if x < 0 then 0 else x)

/-- Spec-side softmax: subtract the maximum entry, apply the exponential
`e`, and normalize by the sum of the transformed entries. -/
def softmaxSpec (e : α → α) (v : List α) : List α :=
  let m := v.foldl (fun x y => if x < y then y else x) (v.headD 0)
  let w := v.map (fun x => e (x - m))
  w.map (fun x => x / w.sum)

theorem map_loop_zero (f : Nat → α → α) (data : List α) : map_loop f 0 data = data := rfl

theorem map_loop_succ (f : Nat → α → α) (n : Nat) (data : List α) :
    map_loop f (n + 1) data =
      (map_loop f n data).set n (f n ((map_loop f n data).getD n 0)) := by
  unfold map_loop
  rw [List.range_succ, List.foldl_append]
  rfl

theorem map_loop_length (f : Nat → α → α) (size : Nat) (data : List α) :
    (map_loop f size data).length = data.length := by
  induction size with
  | zero => rfl
  | succ n ih => rw [map_loop_succ, List.length_set, ih]

theorem getD_set_self (l : List α) (i : Nat) (a : α) (h : i < l.length) :
    (l.set i a).getD i 0 = a := by
  rw [List.getD_eq_getElem?_getD, List.getElem?_set_eq_of_lt a h]
  rfl

theorem getD_set_ne (l : List α) (i j : Nat) (a : α) (h : i ≠ j) :
    (l.set i a).getD j 0 = l.getD j 0 := by
  rw [List.getD_eq_getElem?_getD, List.getElem?_set_ne h, ← List.getD_eq_getElem?_getD]

theorem map_loop_getD (f : Nat → α → α) (size : Nat) (data : List α) (j : Nat) :
    (map_loop f size data).getD j 0 =
      if j < size ∧ j < data.length then f j (data.getD j 0) else data.getD j 0 := by
  induction size with
  | zero =>
    rw [map_loop_zero]
    simp
  | succ n ih =>
    rw [map_loop_succ]
    by_cases hj : j = n
    · subst hj
      by_cases hlen : j < data.length
      · rw [getD_set_self _ _ _ (by rw [map_loop_length]; exact hlen), ih]
        simp [hlen, Nat.lt_irrefl, Nat.lt_succ_self]
      · rw [List.set_eq_of_length_le (by rw [map_loop_length]; exact Nat.le_of_not_lt hlen), ih]
        simp [hlen]
    · rw [getD_set_ne _ _ _ _ (fun h => hj h.symm), ih]
      split_ifs with h1 h2 h2 <;> first | rfl | omega

theorem list_eq_of_getD (l1 l2 : List α) (hlen : l1.length = l2.length)
    (h : ∀ j, l1.getD j 0 = l2.getD j 0) : l1 = l2 := by
  apply List.ext_getElem hlen
  intro i h1 h2
  have hi := h i
  rwa [List.getD_eq_getElem _ _ h1, List.getD_eq_getElem _ _ h2] at hi

theorem matvec_multiply_zero_rows (weights input output : List α) (cols : Nat) :
    matvec_multiply weights input output 0 cols = map_loop (fun _ _ => 0) cols output := rfl

theorem matvec_multiply_succ (weights input output : List α) (r cols : Nat) :
    matvec_multiply weights input output (r + 1) cols =
      map_loop (fun j x => x + weights.getD (r * cols + j) 0 * input.getD r 0) cols
        (matvec_multiply weights input output r cols) := by
  unfold matvec_multiply
  rw [List.range_succ, List.foldl_append]
  rfl

theorem matvec_multiply_length (weights input output : List α) (rows cols : Nat) :
    (matvec_multiply weights input output rows cols).length = output.length := by
  induction rows with
  | zero => rw [matvec_multiply_zero_rows, map_loop_length]
  | succ r ih => rw [matvec_multiply_succ, map_loop_length, ih]

theorem matvec_multiply_getD (weights input output : List α) (rows cols j : Nat) :
    (matvec_multiply weights input output rows cols).getD j 0 =
      if j < cols ∧ j < output.length then
        ∑ i ∈ Finset.range rows, weights.getD (i * cols + j) 0 * input.getD i 0
      else output.getD j 0 := by
  induction rows with
  | zero =>
    rw [matvec_multiply_zero_rows, map_loop_getD]
    simp
  | succ r ih =>
    rw [matvec_multiply_succ, map_loop_getD, matvec_multiply_length, ih]
    split_ifs with h
    · rw [Finset.sum_range_succ]
    · rfl

theorem dense_forward_length (input weights bias output : List α) (isz osz : Nat) :
    (dense_forward input weights bias output isz osz).length = output.length := by
  unfold dense_forward
  rw [map_loop_length, matvec_multiply_length]

theorem dense_forward_getD (input weights bias output : List α) (isz osz j : Nat) :
    (dense_forward input weights bias output isz osz).getD j 0 =
      if j < osz ∧ j < output.length then
        (∑ i ∈ Finset.range isz, weights.getD (i * osz + j) 0 * input.getD i 0)
          + bias.getD j 0
      else output.getD j 0 := by
  unfold dense_forward
  rw [map_loop_getD, matvec_multiply_length, matvec_multiply_getD]
  by_cases h : j < osz ∧ j < output.length
  · simp only [if_pos h]
  · simp only [if_neg h]

theorem relu_dense_getD (input weights bias buf : List α) (isz osz j : Nat) :
    (relu (dense_forward input weights bias buf isz osz) osz).getD j 0 =
      if j < osz ∧ j < buf.length then
        (fun v => if 0 < v then v else 0)
          ((∑ i ∈ Finset.range isz, weights.getD (i * osz + j) 0 * input.getD i 0)
            + bias.getD j 0)
      else buf.getD j 0 := by
  unfold relu
  rw [map_loop_getD, dense_forward_length, dense_forward_getD]
  by_cases h : j < osz ∧ j < buf.length
  · simp only [if_pos h]
  · simp only [if_neg h]

theorem relu_dense_length (input weights bias buf : List α) (isz osz : Nat) :
    (relu (dense_forward input weights bias buf isz osz) osz).length = buf.length := by
  unfold relu
  rw [map_loop_length, dense_forward_length]

theorem foldl_range_getD_gen (g : α → α → α) (l : List α) :
    ∀ (s : Nat) (full : List α), (∀ k, k < l.length → full.getD (s + k) 0 = l.getD k 0) →
      ∀ m : α,
        (List.range' s l.length).foldl (fun acc i => g acc (full.getD i 0)) m = l.foldl g m := by
  induction l with
  | nil => intro s full _ m; rfl
  | cons x xs ih =>
    intro s full hs m
    have hx : full.getD s 0 = x := by
      have h0 := hs 0 (Nat.succ_pos _)
      simpa using h0
    have hrest : ∀ k, k < xs.length → full.getD (s + 1 + k) 0 = xs.getD k 0 := by
      intro k hk
      have h1 := hs (k + 1) (by simpa using Nat.succ_lt_succ hk)
      have harith : s + 1 + k = s + (k + 1) := by omega
      rw [harith, h1]
      rfl
    have hstep : List.range' s (xs.length + 1) = s :: List.range' (s + 1) xs.length :=
      List.range'_succ s xs.length 1
    rw [List.length_cons, hstep, List.foldl_cons, hx, List.foldl_cons]
    exact ih (s + 1) full hrest (g m x)

theorem map_loop_full (f : α → α) (data : List α) :
    map_loop (fun _ x => f x) data.length data = data.map f := by
  apply list_eq_of_getD
  · rw [map_loop_length, List.length_map]
  · intro j
    rw [map_loop_getD]
    by_cases h : j < data.length
    · rw [if_pos ⟨h, h⟩, List.getD_eq_getElem _ _ h,
        List.getD_eq_getElem _ _ (by simpa using h), List.getElem_map]
    · rw [if_neg (fun hc => h hc.2)]
      have h1 : data.getD j 0 = 0 := by
        rw [List.getD_eq_getElem?_getD, List.getElem?_eq_none (Nat.le_of_not_lt h)]
        rfl
      have h2 : (data.map f).getD j 0 = 0 := by
        rw [List.getD_eq_getElem?_getD,
          List.getElem?_eq_none (by rw [List.length_map]; exact Nat.le_of_not_lt h)]
        rfl
      rw [h1, h2]

theorem foldl_range_sum_getD (l : List α) (n : Nat) (hlen : l.length = n) :
    (List.range n).foldl (fun acc i => acc + l.getD i 0) 0 = l.sum := by
  rw [List.range_eq_range', ← hlen]
  have hs : ∀ k, k < l.length → l.getD (0 + k) 0 = l.getD k 0 := by
    intro k _
    rw [Nat.zero_add]
  exact (foldl_range_getD_gen (· + ·) l 0 l hs 0).trans List.sum_eq_foldl.symm

theorem softmax_eq_spec (e : α → α) (data : List α) (hne : data ≠ []) :
    softmax e data data.length = some (softmaxSpec e data) := by
  cases data with
  | nil => exact absurd rfl hne
  | cons d0 rest =>
    have hmax :
        (List.range' 1 ((d0 :: rest).length - 1)).foldl
            (fun m i => if m < (d0 :: rest).getD i 0 then (d0 :: rest).getD i 0 else m) d0 =
          (d0 :: rest).foldl (fun x y => if x < y then y else x) d0 := by
      have hlen : (d0 :: rest).length - 1 = rest.length := by
        rw [List.length_cons]
        omega
      have hs : ∀ k, k < rest.length → (d0 :: rest).getD (1 + k) 0 = rest.getD k 0 := by
        intro k hk
        have h1k : 1 + k = k + 1 := by omega
        rw [h1k]
        rfl
      have hb := foldl_range_getD_gen (fun x y => if x < y then y else x) rest 1 (d0 :: rest) hs d0
      rw [hlen]
      refine hb.trans ?_
      rw [List.foldl_cons]
      have hd : (if d0 < d0 then d0 else d0) = d0 := ite_self d0
      rw [hd]
    simp only [softmax, softmaxSpec, List.headD_cons]
    rw [hmax]
    rw [map_loop_full (fun x => e (x - (d0 :: rest).foldl (fun x y => if x < y then y else x) d0))
      (d0 :: rest)]
    rw [foldl_range_sum_getD ((d0 :: rest).map
      (fun x => e (x - (d0 :: rest).foldl (fun x y => if x < y then y else x) d0)))
      (d0 :: rest).length (List.length_map _ _)]
    congr 1
    have hlenmap : (d0 :: rest).length = ((d0 :: rest).map
        (fun x => e (x - (d0 :: rest).foldl (fun x y => if x < y then y else x) d0))).length :=
      (List.length_map _ _).symm
    rw [hlenmap]
    exact map_loop_full _ _

theorem sum_map_div (l : List α) (c : α) : (l.map (fun x => x / c)).sum = l.sum / c := by
  induction l with
  | nil => simp
  | cons x xs ih =>
    rw [List.map_cons, List.sum_cons, List.sum_cons, ih, add_div]

theorem softmaxSpec_length (e : α → α) (v : List α) : (softmaxSpec e v).length = v.length := by
  unfold softmaxSpec
  rw [List.length_map, List.length_map]

theorem softmaxSpec_sum (e : α → α) (he : ∀ x, 0 < e x) (v : List α) (hne : v ≠ []) :
    (softmaxSpec e v).sum = 1 := by
  unfold softmaxSpec
  rw [sum_map_div]
  have hpos : 0 < (v.map (fun x =>
      e (x - v.foldl (fun x y => if x < y then y else x) (v.headD 0)))).sum := by
    apply List.sum_pos
    · intro x hx
      rcases List.mem_map.mp hx with ⟨y, _, rfl⟩
      exact he _
    · intro hmap
      exact hne (List.map_eq_nil_iff.mp hmap)
  exact div_self (ne_of_gt hpos)

theorem softmaxSpec_mem (e : α → α) (he : ∀ x, 0 < e x) (v : List α) :
    ∀ y ∈ softmaxSpec e v, 0 ≤ y ∧ y ≤ 1 := by
  intro y hy
  unfold softmaxSpec at hy
  rcases List.mem_map.mp hy with ⟨x, hx, rfl⟩
  have hxpos : 0 < x := by
    rcases List.mem_map.mp hx with ⟨z, _, rfl⟩
    exact he _
  have hsums : x ≤ (v.map (fun x =>
      e (x - v.foldl (fun x y => if x < y then y else x) (v.headD 0)))).sum := by
    apply List.single_le_sum _ _ hx
    intro z hz
    rcases List.mem_map.mp hz with ⟨w, _, rfl⟩
    exact le_of_lt (he _)
  have hS : 0 < (v.map (fun x =>
      e (x - v.foldl (fun x y => if x < y then y else x) (v.headD 0)))).sum :=
    lt_of_lt_of_le hxpos hsums
  constructor
  · exact div_nonneg (le_of_lt hxpos) (le_of_lt hS)
  · exact (div_le_one hS).mpr hsums

theorem softmaxSpec_three_const (e : α → α) (he : 0 < e 0) (c : α) :
    softmaxSpec e [c, c, c] = [3⁻¹, 3⁻¹, 3⁻¹] := by
  unfold softmaxSpec
  simp only [List.headD_cons, List.foldl_cons, List.foldl_nil, lt_irrefl, if_false,
    List.map_cons, List.map_nil, sub_self, List.sum_cons, List.sum_nil]
  have hsum : e 0 + (e 0 + (e 0 + 0)) = 3 * e 0 := by ring
  rw [hsum]
  have hdiv : e 0 / (3 * e 0) = (3⁻¹ : α) := by
    rw [div_eq_iff (by positivity)]
    field_simp
  rw [hdiv]

theorem getD_of_length_le (l : List α) (i : Nat) (h : l.length ≤ i) : l.getD i 0 = 0 := by
  rw [List.getD_eq_getElem?_getD, List.getElem?_eq_none h]
  rfl

theorem replicate_zero_getD (n k : Nat) : (List.replicate n (0 : α)).getD k 0 = 0 := by
  rw [List.getD_eq_getElem?_getD, List.getElem?_replicate]
  split_ifs <;> rfl

theorem denseSpec_length (w b inp : List α) (isz osz : Nat) :
    (denseSpec w b inp isz osz).length = osz := by
  unfold denseSpec
  rw [List.length_map, List.length_range]

theorem denseSpec_getD (w b inp : List α) (isz osz j : Nat) (hj : j < osz) :
    (denseSpec w b inp isz osz).getD j 0 =
      (∑ i ∈ Finset.range isz, w.getD (i * osz + j) 0 * inp.getD i 0) + b.getD j 0 := by
  unfold denseSpec
  rw [List.getD_eq_getElem _ _ (by rw [List.length_map, List.length_range]; exact hj),
    List.getElem_map, List.getElem_range]

theorem reluSpec_length (v : List α) : (reluSpec v).length = v.length := by
  unfold reluSpec
  rw [List.length_map]

theorem reluSpec_getD (v : List α) (j : Nat) (hj : j < v.length) :
    (reluSpec v).getD j 0 = if v.getD j 0 < 0 then 0 else v.getD j 0 := by
  unfold reluSpec
  rw [List.getD_eq_getElem _ _ (by rw [List.length_map]; exact hj), List.getElem_map,
    List.getD_eq_getElem _ _ hj]

/-- C1: for all `rows`, `cols`, every weight table and every input vector of
length `rows`, `matvec_multiply(weights, input, output, rows, cols)` sets,
for each output index `j` in `[0, cols)`,
`output[j] = Σ_{i<rows} weights[i*cols + j] * input[i]` (the transposed,
input-major convention), and the pre-existing contents of `output` are fully
overwritten (zero-initialized before accumulation), not added to: the result
at every `j < cols` is independent of the initial output contents. -/
theorem C1_matvec_multiply_correct (weights input output : List α) (rows cols : Nat)
    (_hin : input.length = rows) (hout : cols ≤ output.length) :
    (∀ j, j < cols → (matvec_multiply weights input output rows cols).getD j 0 =
      ∑ i ∈ Finset.range rows, weights.getD (i * cols + j) 0 * input.getD i 0)
    ∧ ∀ output2 : List α, cols ≤ output2.length → ∀ j, j < cols →
      (matvec_multiply weights input output rows cols).getD j 0 =
      (matvec_multiply weights input output2 rows cols).getD j 0 := by
  constructor
  · intro j hj
    rw [matvec_multiply_getD, if_pos ⟨hj, lt_of_lt_of_le hj hout⟩]
  · intro output2 h2 j hj
    rw [matvec_multiply_getD, matvec_multiply_getD, if_pos ⟨hj, lt_of_lt_of_le hj hout⟩,
      if_pos ⟨hj, lt_of_lt_of_le hj h2⟩]

/-- Witness for C1 at a concrete 2×3 table: entry 1 of the result is
`weights[0*3+1]*input[0] + weights[1*3+1]*input[1] = 2*10 + 5*20 = 120`,
independent of the initial output contents `[7, 7, 7]`. -/
theorem C1_witness :
    ([(10 : ℚ), 20] : List ℚ).length = 2 ∧ 3 ≤ ([(7 : ℚ), 7, 7] : List ℚ).length ∧
    (matvec_multiply [(1 : ℚ), 2, 3, 4, 5, 6] [10, 20] [7, 7, 7] 2 3).getD 1 0 =
      ∑ i ∈ Finset.range 2,
        ([(1 : ℚ), 2, 3, 4, 5, 6] : List ℚ).getD (i * 3 + 1) 0 * ([(10 : ℚ), 20] : List ℚ).getD i 0 :=
  ⟨by decide, by decide,
    (C1_matvec_multiply_correct [(1 : ℚ), 2, 3, 4, 5, 6] [10, 20] [7, 7, 7] 2 3
      (by decide) (by decide)).1 1 (by decide)⟩

/-- C6: `relu(data, size)` replaces each negative element of the buffer with
zero and leaves each non-negative element unchanged; the result has no
negative element in the buffer, the operation has no effect beyond the
buffer, and it is a no-op on an empty buffer. -/
theorem C6_relu_correct (data : List α) (size : Nat) :
    ((relu data size).length = data.length)
    ∧ (∀ i, i < size → (relu data size).getD i 0 =
        if data.getD i 0 < 0 then 0 else data.getD i 0)
    ∧ (∀ i, i < size → 0 ≤ (relu data size).getD i 0)
    ∧ (∀ i, size ≤ i → (relu data size).getD i 0 = data.getD i 0)
    ∧ relu data 0 = data := by
  refine ⟨map_loop_length _ _ _, ?_, ?_, ?_, rfl⟩
  · intro i hi
    unfold relu
    rw [map_loop_getD]
    by_cases hlen : i < data.length
    · rw [if_pos ⟨hi, hlen⟩]
      show (if 0 < data.getD i 0 then data.getD i 0 else 0) =
        if data.getD i 0 < 0 then 0 else data.getD i 0
      rcases lt_trichotomy (data.getD i 0) 0 with h | h | h
      · rw [if_neg (asymm h), if_pos h]
      · rw [h]
      · rw [if_pos h, if_neg (asymm h)]
    · rw [if_neg (fun hc => hlen hc.2), getD_of_length_le _ _ (Nat.le_of_not_lt hlen), ite_self]
  · intro i hi
    unfold relu
    rw [map_loop_getD]
    by_cases hlen : i < data.length
    · rw [if_pos ⟨hi, hlen⟩]
      show (0 : α) ≤ if 0 < data.getD i 0 then data.getD i 0 else 0
      split_ifs with h
      · exact le_of_lt h
      · exact le_refl 0
    · rw [if_neg (fun hc => hlen hc.2), getD_of_length_le _ _ (Nat.le_of_not_lt hlen)]
  · intro i hi
    unfold relu
    rw [map_loop_getD, if_neg (fun hc => absurd hc.1 (Nat.not_lt_of_ge hi))]

/-- Witness for C6 at the buffer `[-1, 2]`: the negative entry becomes 0,
entries are non-negative, an index beyond the buffer is untouched. -/
theorem C6_witness :
    (0 : Nat) < 2 ∧
    (relu [(-1 : ℚ), 2] 2).getD 0 0 =
      (if ([(-1 : ℚ), 2] : List ℚ).getD 0 0 < 0 then 0 else ([(-1 : ℚ), 2] : List ℚ).getD 0 0) ∧
    0 ≤ (relu [(-1 : ℚ), 2] 2).getD 0 0 ∧
    (relu [(-1 : ℚ), 2] 2).getD 5 0 = ([(-1 : ℚ), 2] : List ℚ).getD 5 0 ∧
    relu [(-1 : ℚ), 2] 2 = [0, 2] :=
  ⟨by decide, (C6_relu_correct [(-1 : ℚ), 2] 2).2.1 0 (by decide),
    (C6_relu_correct [(-1 : ℚ), 2] 2).2.2.1 0 (by decide),
    (C6_relu_correct [(-1 : ℚ), 2] 2).2.2.2.1 5 (by decide), by decide⟩

/-- C7: `dense_forward` is `matvec_multiply` followed by elementwise bias
addition into the output buffer —
`output[j] = (Σ_i weights[i*output_size + j] * input[i]) + bias[j]` for
every `j < output_size` — with no activation; consequently with all-zero
weights it reproduces the bias vector exactly. -/
theorem C7_dense_forward_correct (input weights bias output : List α) (isz osz : Nat)
    (hout : osz ≤ output.length) :
    dense_forward input weights bias output isz osz =
      map_loop (fun i x => x + bias.getD i 0) osz (matvec_multiply weights input output isz osz)
    ∧ (∀ j, j < osz → (dense_forward input weights bias output isz osz).getD j 0 =
        (∑ i ∈ Finset.range isz, weights.getD (i * osz + j) 0 * input.getD i 0) + bias.getD j 0)
    ∧ ((∀ k, weights.getD k 0 = 0) → ∀ j, j < osz →
        (dense_forward input weights bias output isz osz).getD j 0 = bias.getD j 0) := by
  refine ⟨rfl, ?_, ?_⟩
  · intro j hj
    rw [dense_forward_getD, if_pos ⟨hj, lt_of_lt_of_le hj hout⟩]
  · intro hw j hj
    rw [dense_forward_getD, if_pos ⟨hj, lt_of_lt_of_le hj hout⟩]
    have hz : ∑ i ∈ Finset.range isz, weights.getD (i * osz + j) 0 * input.getD i 0 = 0 := by
      apply Finset.sum_eq_zero
      intro i _
      rw [hw, zero_mul]
    rw [hz, zero_add]

/-- Witness for C7: with the all-zero 2×3 weight table, `dense_forward`
reproduces the bias vector entry. -/
theorem C7_witness :
    3 ≤ ([(0 : ℚ), 0, 0] : List ℚ).length ∧
    (dense_forward [(1 : ℚ), 2] (List.replicate 6 0) [9, 8, 7] [0, 0, 0] 2 3).getD 2 0 =
      ([(9 : ℚ), 8, 7] : List ℚ).getD 2 0 :=
  ⟨by decide,
    (C7_dense_forward_correct [(1 : ℚ), 2] (List.replicate 6 0) [9, 8, 7] [0, 0, 0] 2 3
      (by decide)).2.2 (fun k => replicate_zero_getD 6 k) 2 (by decide)⟩

/-- C9: `vector_add(a, b, output, size)` sets `output[i] = a[i] + b[i]` for
every `i < size`, and stays correct when the output buffer aliases `a` or
`b`: the aliased in-place loops compute exactly the same buffer as writing
the elementwise sums into `a` (resp. `b`) afresh. -/
theorem C9_vector_add_correct :
    (∀ (a b output : List α) (size : Nat), a.length = size → b.length = size →
      size ≤ output.length → ∀ i, i < size →
        (vector_add a b output size).getD i 0 = a.getD i 0 + b.getD i 0)
    ∧ (∀ (a b : List α) (size : Nat), vector_add_alias_fst a b size = vector_add a b a size)
    ∧ (∀ (a b : List α) (size : Nat), vector_add_alias_snd a b size = vector_add a b b size) := by
  refine ⟨?_, ?_, ?_⟩
  · intro a b output size _ _ hout i hi
    unfold vector_add
    rw [map_loop_getD, if_pos ⟨hi, lt_of_lt_of_le hi hout⟩]
  · intro a b size
    unfold vector_add vector_add_alias_fst
    apply list_eq_of_getD
    · rw [map_loop_length, map_loop_length]
    · intro j
      rw [map_loop_getD, map_loop_getD]
  · intro a b size
    unfold vector_add vector_add_alias_snd
    apply list_eq_of_getD
    · rw [map_loop_length, map_loop_length]
    · intro j
      rw [map_loop_getD, map_loop_getD]

/-- Witness for C9 at concrete buffers, including both aliased forms. -/
theorem C9_witness :
    ([(1 : ℚ), 2].length = 2) ∧ ([(10 : ℚ), 20].length = 2) ∧ 2 ≤ ([(0 : ℚ), 0] : List ℚ).length ∧
    (vector_add [(1 : ℚ), 2] [10, 20] [0, 0] 2).getD 0 0 =
      ([(1 : ℚ), 2] : List ℚ).getD 0 0 + ([(10 : ℚ), 20] : List ℚ).getD 0 0 ∧
    vector_add_alias_fst [(1 : ℚ), 2] [10, 20] 2 = vector_add [(1 : ℚ), 2] [10, 20] [1, 2] 2 ∧
    vector_add_alias_snd [(1 : ℚ), 2] [10, 20] 2 = vector_add [(1 : ℚ), 2] [10, 20] [10, 20] 2 :=
  ⟨by decide, by decide, by decide,
    (@C9_vector_add_correct ℚ _).1 [1, 2] [10, 20] [0, 0] 2 (by decide) (by decide)
      (by decide) 0 (by decide),
    (@C9_vector_add_correct ℚ _).2.1 [1, 2] [10, 20] 2,
    (@C9_vector_add_correct ℚ _).2.2 [1, 2] [10, 20] 2⟩

/-- C5 counterexample: `softmax` does NOT guard the empty buffer. The code
reads `data[0]` before any size check, so on a buffer of length 0 it
accesses an element outside the buffer; in the embedding that out-of-bounds
read is exactly the `none` result. -/
theorem C5_counterexample : softmax (fun x : ℚ => x + 1) [] 0 = none := rfl

/-- C5 amended: `softmax` on a length-0 buffer performs the unguarded
out-of-bounds read of element 0 (modelled as `none`) instead of guarding
the degenerate case; on every non-empty buffer it produces a result. -/
theorem C5_softmax_empty_amended :
    (∀ (e : α → α) (size : Nat), softmax e ([] : List α) size = none)
    ∧ (∀ (e : α → α) (data : List α) (size : Nat), data ≠ [] →
        ∃ r, softmax e data size = some r) := by
  constructor
  · intro e size
    rfl
  · intro e data size hne
    cases data with
    | nil => exact absurd rfl hne
    | cons d0 rest => exact ⟨_, rfl⟩

/-- Witness for C5 amended: the non-empty buffer `[1, 2]` yields a result. -/
theorem C5_witness :
    ([(1 : ℚ), 2] : List ℚ) ≠ [] ∧ ∃ r, softmax (fun x : ℚ => x) [1, 2] 2 = some r :=
  ⟨by decide, (@C5_softmax_empty_amended ℚ _).2 (fun x => x) [1, 2] 2 (by decide)⟩

/-- C3: on every non-empty buffer (with `size` the buffer length), `softmax`
finds the maximum, replaces each element `x` with `e (x - max)` and divides
by the sum of the transformed elements; the result exists, has all elements
in `[0, 1]`, and sums to exactly 1 in the exact-arithmetic model (given that
the exponential is strictly positive).  On the large-magnitude input
`[1000, 1000, 1000]` the max subtraction makes every transformed entry
`e 0`, so the result is exactly `[1/3, 1/3, 1/3]` — the model counterpart of
the code's no-overflow/no-NaN stability property. -/
theorem C3_softmax_correct (e : α → α) (he : ∀ x, 0 < e x) :
    (∀ (data : List α) (size : Nat), data ≠ [] → size = data.length →
      ∃ r, softmax e data size = some r ∧ r.sum = 1 ∧ ∀ y ∈ r, 0 ≤ y ∧ y ≤ 1)
    ∧ softmax e [(1000 : α), 1000, 1000] 3 = some [3⁻¹, 3⁻¹, 3⁻¹] := by
  constructor
  · intro data size hne hsize
    subst hsize
    exact ⟨softmaxSpec e data, softmax_eq_spec e data hne,
      softmaxSpec_sum e he data hne, softmaxSpec_mem e he data⟩
  · have h3 : (3 : Nat) = ([(1000 : α), 1000, 1000]).length := rfl
    rw [h3, softmax_eq_spec e _ (by simp), softmaxSpec_three_const e (he 0) 1000]

/-- Witness for C3 with the positive function `fun _ => 1` standing for the
exponential, on the buffer `[5, 7]`. -/
theorem C3_witness :
    (∀ x : ℚ, 0 < (fun _ : ℚ => (1 : ℚ)) x) ∧
    ∃ r, softmax (fun _ : ℚ => 1) [5, 7] 2 = some r ∧ r.sum = 1 ∧ ∀ y ∈ r, 0 ≤ y ∧ y ≤ 1 :=
  ⟨fun _ => one_pos,
    (C3_softmax_correct (fun _ : ℚ => 1) (fun _ => one_pos)).1 [5, 7] 2 (by decide) rfl⟩

/-- C10: the constructor zero-fills all 18 slots of the intermediate buffer,
and `predict` writes only its first `layer1_output_size` slots, so every
slot at an index at or above `layer1_output_size` is zero after
construction and stays zero across `predict` calls. -/
theorem C10_intermediate_tail_zero (e : α → α) :
    (∀ (w1 b1 : List α) (in1 out1 : Nat) (w2 b2 : List α) (in2 out2 : Nat) (k : Nat),
      (NeuralNetwork.construct w1 b1 in1 out1 w2 b2 in2 out2).layer1_output.getD k 0 = 0)
    ∧ (∀ (nn : NeuralNetwork α) (input output : List α) (k : Nat),
        nn.layer1_output_size ≤ 18 →
        (∀ j, nn.layer1_output_size ≤ j → nn.layer1_output.getD j 0 = 0) →
        nn.layer1_output_size ≤ k →
        ((nn.predict e input output).1).layer1_output.getD k 0 = 0) := by
  constructor
  · intro w1 b1 in1 out1 w2 b2 in2 out2 k
    exact replicate_zero_getD 18 k
  · intro nn input output k _ hinv hk
    show (relu (dense_forward input nn.layer1_weights nn.layer1_bias nn.layer1_output
      nn.layer1_input_size nn.layer1_output_size) nn.layer1_output_size).getD k 0 = 0
    rw [relu_dense_getD, if_neg (fun hc => absurd hc.1 (Nat.not_lt_of_ge hk))]
    exact hinv k hk

/-- Witness for C10: a freshly constructed 1→2→1 network (hidden width 2)
keeps slot 5 of the intermediate buffer at zero across a `predict` call. -/
theorem C10_witness :
    ((NeuralNetwork.construct [(1 : ℚ), 1] [1, 1] 1 2 [1, 1] [1] 2 1).layer1_output_size ≤ 18) ∧
    ((NeuralNetwork.construct [(1 : ℚ), 1] [1, 1] 1 2 [1, 1] [1] 2 1).layer1_output_size ≤ 5) ∧
    ((((NeuralNetwork.construct [(1 : ℚ), 1] [1, 1] 1 2 [1, 1] [1] 2 1).predict
        (fun _ => 1) [4] [0]).1).layer1_output.getD 5 0 = 0) :=
  ⟨by decide, by decide,
    (C10_intermediate_tail_zero (fun _ : ℚ => 1)).2
      (NeuralNetwork.construct [(1 : ℚ), 1] [1, 1] 1 2 [1, 1] [1] 2 1) [4] [0] 5
      (by decide)
      (fun j _ => replicate_zero_getD 18 j)
      (by decide)⟩

/-- C8: `predict` is deterministic and stateless across calls.  Starting
from any instance state (hence after any sequence of earlier `predict`
calls), running `predict` again with the same input produces exactly the
same output and the same instance state: the intermediate buffer is fully
overwritten (zero-initialized by `matvec_multiply`) before being read, so it
carries no observable state between calls. -/
theorem C8_predict_deterministic (e : α → α) (nn : NeuralNetwork α) (input output : List α) :
    NeuralNetwork.predict e ((NeuralNetwork.predict e nn input output).1) input output =
      NeuralNetwork.predict e nn input output := by
  have hBB : relu (dense_forward input nn.layer1_weights nn.layer1_bias
      (relu (dense_forward input nn.layer1_weights nn.layer1_bias nn.layer1_output
        nn.layer1_input_size nn.layer1_output_size) nn.layer1_output_size)
      nn.layer1_input_size nn.layer1_output_size) nn.layer1_output_size =
      relu (dense_forward input nn.layer1_weights nn.layer1_bias nn.layer1_output
        nn.layer1_input_size nn.layer1_output_size) nn.layer1_output_size := by
    apply list_eq_of_getD
    · rw [relu_dense_length, relu_dense_length]
    · intro j
      rw [relu_dense_getD, relu_dense_getD, relu_dense_length]
      split_ifs <;> rfl
  simp only [NeuralNetwork.predict]
  rw [hBB]

theorem predict_spec_general (e : α → α) (he : ∀ x, 0 < e x) (nn : NeuralNetwork α)
    (input output : List α)
    (hchain : nn.layer1_output_size = nn.layer2_input_size)
    (hcap : nn.layer1_output_size ≤ nn.layer1_output.length)
    (hout : output.length = nn.layer2_output_size)
    (hpos : 0 < nn.layer2_output_size) :
    ∃ r, (nn.predict e input output).2 = some r ∧
      r = softmaxSpec e (denseSpec nn.layer2_weights nn.layer2_bias
        (reluSpec (denseSpec nn.layer1_weights nn.layer1_bias input
          nn.layer1_input_size nn.layer1_output_size))
        nn.layer2_input_size nn.layer2_output_size) ∧
      r.sum = 1 ∧ ∀ y ∈ r, 0 ≤ y ∧ y ≤ 1 := by
  have hkey : ∀ i, i < nn.layer2_input_size →
      (relu (dense_forward input nn.layer1_weights nn.layer1_bias nn.layer1_output
        nn.layer1_input_size nn.layer1_output_size) nn.layer1_output_size).getD i 0 =
      (reluSpec (denseSpec nn.layer1_weights nn.layer1_bias input
        nn.layer1_input_size nn.layer1_output_size)).getD i 0 := by
    intro i hi
    have hi1 : i < nn.layer1_output_size := hchain ▸ hi
    rw [relu_dense_getD, if_pos ⟨hi1, lt_of_lt_of_le hi1 hcap⟩,
      reluSpec_getD _ _ (by rw [denseSpec_length]; exact hi1), denseSpec_getD _ _ _ _ _ _ hi1]
    show (if 0 < ((∑ k ∈ Finset.range nn.layer1_input_size,
        nn.layer1_weights.getD (k * nn.layer1_output_size + i) 0 * input.getD k 0)
          + nn.layer1_bias.getD i 0) then _ else (0 : α)) = _
    rcases lt_trichotomy ((∑ k ∈ Finset.range nn.layer1_input_size,
        nn.layer1_weights.getD (k * nn.layer1_output_size + i) 0 * input.getD k 0)
          + nn.layer1_bias.getD i 0) 0 with h | h | h
    · rw [if_neg (asymm h), if_pos h]
    · rw [h]
    · rw [if_pos h, if_neg (asymm h)]
  have hout2 : dense_forward
      (relu (dense_forward input nn.layer1_weights nn.layer1_bias nn.layer1_output
        nn.layer1_input_size nn.layer1_output_size) nn.layer1_output_size)
      nn.layer2_weights nn.layer2_bias output nn.layer2_input_size nn.layer2_output_size =
      denseSpec nn.layer2_weights nn.layer2_bias
        (reluSpec (denseSpec nn.layer1_weights nn.layer1_bias input
          nn.layer1_input_size nn.layer1_output_size))
        nn.layer2_input_size nn.layer2_output_size := by
    apply list_eq_of_getD
    · rw [dense_forward_length, denseSpec_length, hout]
    · intro j
      by_cases hj : j < nn.layer2_output_size
      · rw [dense_forward_getD, if_pos ⟨hj, hout ▸ hj⟩, denseSpec_getD _ _ _ _ _ _ hj]
        congr 1
        apply Finset.sum_congr rfl
        intro i hi
        rw [hkey i (Finset.mem_range.mp hi)]
      · rw [dense_forward_getD, if_neg (fun hc => hj hc.1),
          getD_of_length_le _ _ (by rw [hout]; exact Nat.le_of_not_lt hj),
          getD_of_length_le _ _ (by rw [denseSpec_length]; exact Nat.le_of_not_lt hj)]
  have hne : denseSpec nn.layer2_weights nn.layer2_bias
      (reluSpec (denseSpec nn.layer1_weights nn.layer1_bias input
        nn.layer1_input_size nn.layer1_output_size))
      nn.layer2_input_size nn.layer2_output_size ≠ [] := by
    apply List.ne_nil_of_length_pos
    rw [denseSpec_length]
    exact hpos
  refine ⟨_, ?_, rfl, softmaxSpec_sum e he _ hne, softmaxSpec_mem e he _⟩
  show softmax e (dense_forward
      (relu (dense_forward input nn.layer1_weights nn.layer1_bias nn.layer1_output
        nn.layer1_input_size nn.layer1_output_size) nn.layer1_output_size)
      nn.layer2_weights nn.layer2_bias output nn.layer2_input_size nn.layer2_output_size)
      nn.layer2_output_size = _
  rw [hout2]
  have hlen2 : nn.layer2_output_size = (denseSpec nn.layer2_weights nn.layer2_bias
      (reluSpec (denseSpec nn.layer1_weights nn.layer1_bias input
        nn.layer1_input_size nn.layer1_output_size))
      nn.layer2_input_size nn.layer2_output_size).length := (denseSpec_length _ _ _ _ _).symm
  nth_rewrite 2 [hlen2]
  exact softmax_eq_spec e _ hne

/-- C2: for every network whose layer sizes chain (layer 1 output size
equals layer 2 input size, and fits the intermediate buffer) and every
input of the layer 1 input length, `predict` fills the caller's output
buffer with `softmax (dense₂ (relu (dense₁ input)))`, where the spec-side
layer functions are `denseSpec`, `reluSpec`, `softmaxSpec`; the result is a
probability distribution over the `layer2_output_size` classes. -/
theorem C2_predict_correct (e : α → α) (he : ∀ x, 0 < e x) (nn : NeuralNetwork α)
    (input output : List α)
    (hchain : nn.layer1_output_size = nn.layer2_input_size)
    (hcap : nn.layer1_output_size ≤ nn.layer1_output.length)
    (_hin : input.length = nn.layer1_input_size)
    (hout : output.length = nn.layer2_output_size)
    (hpos : 0 < nn.layer2_output_size) :
    ∃ r, (nn.predict e input output).2 = some r ∧
      r = softmaxSpec e (denseSpec nn.layer2_weights nn.layer2_bias
        (reluSpec (denseSpec nn.layer1_weights nn.layer1_bias input
          nn.layer1_input_size nn.layer1_output_size))
        nn.layer2_input_size nn.layer2_output_size) ∧
      r.sum = 1 ∧ ∀ y ∈ r, 0 ≤ y ∧ y ≤ 1 :=
  predict_spec_general e he nn input output hchain hcap hout hpos

/-- Witness for C2 on a concrete 1→1→1 network. -/
theorem C2_witness :
    (∀ x : ℚ, 0 < (fun _ : ℚ => (1 : ℚ)) x) ∧
    ∃ r, ((NeuralNetwork.construct [(2 : ℚ)] [3] 1 1 [5] [7] 1 1).predict
        (fun _ : ℚ => 1) [1] [0]).2 = some r ∧
      r = softmaxSpec (fun _ : ℚ => 1) (denseSpec [5] [7]
        (reluSpec (denseSpec [2] [3] [1] 1 1)) 1 1) ∧
      r.sum = 1 ∧ ∀ y ∈ r, 0 ≤ y ∧ y ≤ 1 :=
  ⟨fun _ => one_pos,
    C2_predict_correct (fun _ : ℚ => 1) (fun _ => one_pos)
      (NeuralNetwork.construct [(2 : ℚ)] [3] 1 1 [5] [7] 1 1) [1] [0]
      (by decide) (by decide) (by decide) (by decide) (by decide)⟩

theorem argmax3_spec (p0 p1 p2 : α) :
    ∃ k, (((List.range' 1 2).foldl
      (fun pm i => if pm.2 < ([p0, p1, p2] : List α).getD i 0
        then (i, ([p0, p1, p2] : List α).getD i 0) else pm)
      ((0 : Nat), ([p0, p1, p2] : List α).getD 0 0)).1) = k ∧ k < 3 ∧
      (∀ i, i < 3 → ([p0, p1, p2] : List α).getD i 0 ≤ ([p0, p1, p2] : List α).getD k 0) ∧
      (∀ i, i < k → ([p0, p1, p2] : List α).getD i 0 < ([p0, p1, p2] : List α).getD k 0) := by
  have hred : ((List.range' 1 2).foldl
      (fun pm i => if pm.2 < ([p0, p1, p2] : List α).getD i 0
        then (i, ([p0, p1, p2] : List α).getD i 0) else pm)
      ((0 : Nat), ([p0, p1, p2] : List α).getD 0 0)) =
      (if (if p0 < p1 then ((1 : Nat), p1) else (0, p0)).2 < p2 then ((2 : Nat), p2)
        else if p0 < p1 then ((1 : Nat), p1) else (0, p0)) := rfl
  rw [hred]
  by_cases h1 : p0 < p1
  · rw [if_pos h1]
    have hsnd : ((1 : Nat), p1).2 = p1 := rfl
    rw [hsnd]
    by_cases h2 : p1 < p2
    · rw [if_pos h2]
      refine ⟨2, rfl, by decide, ?_, ?_⟩
      · intro i hi
        interval_cases i
        · exact le_of_lt (lt_trans h1 h2)
        · exact le_of_lt h2
        · exact le_refl _
      · intro i hi
        interval_cases i
        · exact lt_trans h1 h2
        · exact h2
    · rw [if_neg h2]
      refine ⟨1, rfl, by decide, ?_, ?_⟩
      · intro i hi
        interval_cases i
        · exact le_of_lt h1
        · exact le_refl _
        · exact le_of_not_lt h2
      · intro i hi
        interval_cases i
        exact h1
  · rw [if_neg h1]
    have hsnd : ((0 : Nat), p0).2 = p0 := rfl
    rw [hsnd]
    by_cases h2 : p0 < p2
    · rw [if_pos h2]
      refine ⟨2, rfl, by decide, ?_, ?_⟩
      · intro i hi
        interval_cases i
        · exact le_of_lt h2
        · exact le_trans (le_of_not_lt h1) (le_of_lt h2)
        · exact le_refl _
      · intro i hi
        interval_cases i
        · exact h2
        · exact lt_of_le_of_lt (le_of_not_lt h1) h2
    · rw [if_neg h2]
      refine ⟨0, rfl, by decide, ?_, ?_⟩
      · intro i hi
        interval_cases i
        · exact le_refl _
        · exact le_of_not_lt h1
        · exact le_of_not_lt h2
      · intro i hi
        exact absurd hi (Nat.not_lt_zero i)

/-- C4 amended: `predict_class` allocates a fixed 3-element local buffer and
scans exactly indices 0..2 (both hard-coded), so for every network whose
layer 2 output size is 3 it returns the index of the maximum element of the
probability vector produced by `predict`, ties broken by first occurrence,
and the index lies in `[0, 3)`; for the 18-hidden-unit / 3-class
configuration with all-zero weights and biases, every input yields output
`[1/3, 1/3, 1/3]` and `predict_class` returns 0. -/
theorem C4_predict_class_amended (e : α → α) (he : ∀ x, 0 < e x) :
    (∀ (nn : NeuralNetwork α) (input : List α) (j0 j1 j2 : α),
      nn.layer2_output_size = 3 →
      ∃ out k, (nn.predict e input [j0, j1, j2]).2 = some out ∧
        (nn.predict_class e input j0 j1 j2).2 = some k ∧ k < 3 ∧
        (∀ i, i < 3 → out.getD i 0 ≤ out.getD k 0) ∧
        (∀ i, i < k → out.getD i 0 < out.getD k 0))
    ∧ (∀ (input : List α) (o0 o1 o2 j0 j1 j2 : α),
      ((NeuralNetwork.construct (List.replicate 36 (0 : α)) (List.replicate 18 0) 2 18
          (List.replicate 54 0) (List.replicate 3 0) 18 3).predict e input [o0, o1, o2]).2 =
        some [3⁻¹, 3⁻¹, 3⁻¹] ∧
      ((NeuralNetwork.construct (List.replicate 36 (0 : α)) (List.replicate 18 0) 2 18
          (List.replicate 54 0) (List.replicate 3 0) 18 3).predict_class e input j0 j1 j2).2 =
        some 0) := by
  have hmain : ∀ (nn : NeuralNetwork α) (input : List α) (j0 j1 j2 : α),
      nn.layer2_output_size = 3 →
      ∃ out k, (nn.predict e input [j0, j1, j2]).2 = some out ∧
        (nn.predict_class e input j0 j1 j2).2 = some k ∧ k < 3 ∧
        (∀ i, i < 3 → out.getD i 0 ≤ out.getD k 0) ∧
        (∀ i, i < k → out.getD i 0 < out.getD k 0) := by
    intro nn input j0 j1 j2 h3
    have hp2 : (nn.predict e input [j0, j1, j2]).2 =
        softmax e (dense_forward
          (relu (dense_forward input nn.layer1_weights nn.layer1_bias nn.layer1_output
            nn.layer1_input_size nn.layer1_output_size) nn.layer1_output_size)
          nn.layer2_weights nn.layer2_bias [j0, j1, j2] nn.layer2_input_size
          nn.layer2_output_size) nn.layer2_output_size := rfl
    set D := dense_forward
      (relu (dense_forward input nn.layer1_weights nn.layer1_bias nn.layer1_output
        nn.layer1_input_size nn.layer1_output_size) nn.layer1_output_size)
      nn.layer2_weights nn.layer2_bias [j0, j1, j2] nn.layer2_input_size
      nn.layer2_output_size with hD
    have hDlen : D.length = 3 := by
      rw [hD, dense_forward_length]
      rfl
    have hDne : D ≠ [] := List.ne_nil_of_length_pos (by rw [hDlen]; decide)
    have hsm : softmax e D nn.layer2_output_size = some (softmaxSpec e D) := by
      rw [h3, show (3 : Nat) = D.length from hDlen.symm]
      exact softmax_eq_spec e D hDne
    have houtlen : (softmaxSpec e D).length = 3 := by
      rw [softmaxSpec_length, hDlen]
    obtain ⟨p0, p1, p2, hP⟩ := List.length_eq_three.mp houtlen
    have hpc : (nn.predict_class e input j0 j1 j2).2 =
        some (((List.range' 1 2).foldl
          (fun pm i => if pm.2 < ([p0, p1, p2] : List α).getD i 0
            then (i, ([p0, p1, p2] : List α).getD i 0) else pm)
          ((0 : Nat), ([p0, p1, p2] : List α).getD 0 0)).1) := by
      have heq : (nn.predict_class e input j0 j1 j2).2 =
          (nn.predict e input [j0, j1, j2]).2.map (fun out =>
            ((List.range' 1 2).foldl
              (fun pm i => if pm.2 < out.getD i 0 then (i, out.getD i 0) else pm)
              (0, out.getD 0 0)).1) := rfl
      rw [heq, hp2, hsm, hP, Option.map_some']
    obtain ⟨k, hkval, hk3, hub, hstrict⟩ := argmax3_spec p0 p1 p2
    refine ⟨[p0, p1, p2], k, ?_, ?_, hk3, hub, hstrict⟩
    · rw [hp2, hsm, hP]
    · rw [hpc, hkval]
  refine ⟨hmain, ?_⟩
  intro input o0 o1 o2 j0 j1 j2
  have hdz : denseSpec (List.replicate 54 (0 : α)) (List.replicate 3 0)
      (reluSpec (denseSpec (List.replicate 36 0) (List.replicate 18 0) input 2 18)) 18 3 =
      [0, 0, 0] := by
    apply list_eq_of_getD
    · rw [denseSpec_length]
      rfl
    · intro j
      by_cases hj : j < 3
      · rw [denseSpec_getD _ _ _ _ _ _ hj]
        have hz : ∑ i ∈ Finset.range 18, (List.replicate 54 (0 : α)).getD (i * 3 + j) 0 *
            (reluSpec (denseSpec (List.replicate 36 (0 : α)) (List.replicate 18 0)
              input 2 18)).getD i 0 = 0 := by
          apply Finset.sum_eq_zero
          intro i _
          rw [replicate_zero_getD, zero_mul]
        rw [hz, replicate_zero_getD, zero_add]
        interval_cases j <;> rfl
      · rw [getD_of_length_le _ _ (by rw [denseSpec_length]; exact Nat.le_of_not_lt hj),
          getD_of_length_le _ _ (by show 3 ≤ j; exact Nat.le_of_not_lt hj)]
  have hpredict : ∀ (o0 o1 o2 : α),
      ((NeuralNetwork.construct (List.replicate 36 (0 : α)) (List.replicate 18 0) 2 18
        (List.replicate 54 0) (List.replicate 3 0) 18 3).predict e input [o0, o1, o2]).2 =
      some [3⁻¹, 3⁻¹, 3⁻¹] := by
    intro o0 o1 o2
    obtain ⟨r, hr, hrdef, _, _⟩ := predict_spec_general e he
      (NeuralNetwork.construct (List.replicate 36 (0 : α)) (List.replicate 18 0) 2 18
        (List.replicate 54 0) (List.replicate 3 0) 18 3) input [o0, o1, o2]
      rfl (le_of_eq (List.length_replicate 18 (0 : α)).symm) rfl (Nat.succ_pos 2)
    rw [hr, hrdef]
    show some (softmaxSpec e (denseSpec (List.replicate 54 (0 : α)) (List.replicate 3 0)
      (reluSpec (denseSpec (List.replicate 36 0) (List.replicate 18 0) input 2 18)) 18 3)) =
      some [3⁻¹, 3⁻¹, 3⁻¹]
    rw [hdz]
    have hconst : ([(0 : α), 0, 0] : List α) = [0, 0, 0] := rfl
    rw [softmaxSpec_three_const e (he 0) 0]
  refine ⟨hpredict o0 o1 o2, ?_⟩
  obtain ⟨out, k, ho, hpc, hk3, _, hstrict⟩ :=
    hmain (NeuralNetwork.construct (List.replicate 36 (0 : α)) (List.replicate 18 0) 2 18
      (List.replicate 54 0) (List.replicate 3 0) 18 3) input j0 j1 j2 rfl
  rw [hpredict j0 j1 j2] at ho
  have hout : out = [3⁻¹, 3⁻¹, 3⁻¹] := (Option.some_inj.mp ho).symm
  have hk0 : k = 0 := by
    by_contra hne0
    have h0k : 0 < k := Nat.pos_of_ne_zero hne0
    have hlt := hstrict 0 h0k
    rw [hout] at hlt
    interval_cases k
    · exact lt_irrefl _ hlt
    · exact lt_irrefl _ hlt
  rw [hpc, hk0]

/-- Witness for C4 amended: the all-zero 18-hidden / 3-class network. -/
theorem C4_witness :
    (∀ x : ℚ, 0 < (fun _ : ℚ => (1 : ℚ)) x) ∧
    ((NeuralNetwork.construct (List.replicate 36 (0 : ℚ)) (List.replicate 18 0) 2 18
      (List.replicate 54 0) (List.replicate 3 0) 18 3).layer2_output_size = 3) ∧
    ∃ out k, ((NeuralNetwork.construct (List.replicate 36 (0 : ℚ)) (List.replicate 18 0) 2 18
        (List.replicate 54 0) (List.replicate 3 0) 18 3).predict
        (fun _ : ℚ => 1) [0, 0] [0, 0, 0]).2 = some out ∧
      ((NeuralNetwork.construct (List.replicate 36 (0 : ℚ)) (List.replicate 18 0) 2 18
        (List.replicate 54 0) (List.replicate 3 0) 18 3).predict_class
        (fun _ : ℚ => 1) [0, 0] 0 0 0).2 = some k ∧ k < 3 ∧
      (∀ i, i < 3 → out.getD i 0 ≤ out.getD k 0) ∧
      (∀ i, i < k → out.getD i 0 < out.getD k 0) :=
  ⟨fun _ => one_pos, rfl,
    (C4_predict_class_amended (fun _ : ℚ => 1) (fun _ => one_pos)).1
      (NeuralNetwork.construct (List.replicate 36 (0 : ℚ)) (List.replicate 18 0) 2 18
        (List.replicate 54 0) (List.replicate 3 0) 18 3) [0, 0] 0 0 0 rfl⟩

/-- C4 counterexample: for a network with layer 2 output size 2 (as in the
repository's thermal configuration), `predict_class` still scans the
hard-coded indices 0..2 of its 3-slot local buffer; slot 2 holds leftover
stack contents that `predict` never wrote (here the junk value 5), and
`predict_class` returns 2, which is NOT in `[0, layer2_output_size) = [0, 2)`
and is not the argmax of the 2-class probability vector. -/
theorem C4_counterexample :
    ((NeuralNetwork.construct [(0 : ℚ)] [0] 1 1 [0, 0] [0, 0] 1 2).predict_class
        (fun _ => 1) [0] 0 0 5).2 = some 2 ∧ ¬ ((2 : Nat) < 2) := by
  constructor
  · have hA : ((NeuralNetwork.construct [(0 : ℚ)] [0] 1 1 [0, 0] [0, 0] 1 2).predict_class
        (fun _ => 1) [0] 0 0 5).2 =
        (((NeuralNetwork.construct [(0 : ℚ)] [0] 1 1 [0, 0] [0, 0] 1 2).predict
          (fun _ => 1) [0] [0, 0, 5]).2).map (fun out =>
            ((List.range' 1 2).foldl
              (fun pm i => if pm.2 < out.getD i 0 then (i, out.getD i 0) else pm)
              (0, out.getD 0 0)).1) := rfl
    have hB : ((NeuralNetwork.construct [(0 : ℚ)] [0] 1 1 [0, 0] [0, 0] 1 2).predict
        (fun _ => 1) [0] [0, 0, 5]).2 =
        softmax (fun _ => 1) (dense_forward
          (relu (dense_forward [0] [(0 : ℚ)] [0] (List.replicate 18 0) 1 1) 1)
          [0, 0] [0, 0] [0, 0, 5] 1 2) 2 := rfl
    have hD : dense_forward (relu (dense_forward [0] [(0 : ℚ)] [0] (List.replicate 18 0) 1 1) 1)
        [0, 0] [0, 0] [0, 0, 5] 1 2 = [0, 0, 5] := by
      apply list_eq_of_getD
      · rw [dense_forward_length]
      · intro j
        rw [dense_forward_getD]
        by_cases hj : j < 2
        · rw [if_pos ⟨hj, lt_of_lt_of_le hj (by decide)⟩, Finset.sum_range_one]
          interval_cases j
          · show (0 : ℚ) * _ + 0 = 0
            rw [zero_mul, add_zero]
          · show (0 : ℚ) * _ + 0 = 0
            rw [zero_mul, add_zero]
        · rw [if_neg (fun hc => hj hc.1)]
    have hS1 : softmax (fun _ : ℚ => 1) [0, 0, 5] 2 =
        some (map_loop (fun _ x => x / ((0 : ℚ) + 1 + 1)) 2 [1, 1, 5]) := rfl
    have hS2 : (0 : ℚ) + 1 + 1 = 2 := by norm_num
    have hS3 : map_loop (fun _ x => x / (2 : ℚ)) 2 [1, 1, 5] = [1 / 2, 1 / 2, 5] := rfl
    rw [hA, hB, hD, hS1, hS2, hS3, Option.map_some']
    congr 1
    have hred : ((List.range' 1 2).foldl
        (fun pm i => if pm.2 < ([1 / 2, 1 / 2, (5 : ℚ)] : List ℚ).getD i 0
          then (i, ([1 / 2, 1 / 2, (5 : ℚ)] : List ℚ).getD i 0) else pm)
        ((0 : Nat), ([1 / 2, 1 / 2, (5 : ℚ)] : List ℚ).getD 0 0)) =
        (if (if (1 / 2 : ℚ) < 1 / 2 then ((1 : Nat), (1 / 2 : ℚ)) else (0, 1 / 2)).2 < 5
          then ((2 : Nat), (5 : ℚ))
          else if (1 / 2 : ℚ) < 1 / 2 then ((1 : Nat), (1 / 2 : ℚ)) else (0, 1 / 2)) := rfl
    show (((List.range' 1 2).foldl
        (fun pm i => if pm.2 < ([1 / 2, 1 / 2, (5 : ℚ)] : List ℚ).getD i 0
          then (i, ([1 / 2, 1 / 2, (5 : ℚ)] : List ℚ).getD i 0) else pm)
        ((0 : Nat), ([1 / 2, 1 / 2, (5 : ℚ)] : List ℚ).getD 0 0)).1) = 2
    rw [hred, if_neg (lt_irrefl ((1 : ℚ) / 2))]
    rw [show ((0 : Nat), (1 / 2 : ℚ)).2 = (1 / 2 : ℚ) from rfl, if_pos (by norm_num)]
  · decide

end CustomNN
